import Mathlib

/-!
Shallow embedding of the gcs-object-lister catalog engine
(`src/app/db.py`, `src/app/fetcher.py`, `src/app/api/manifest.py`,
`src/app/api/manifest_routes.py`).

The SQLite tables of one fetch database are modelled as a `Store` value:
the singleton `fetch` row, the `objects` table (a list of rows whose
`name` column is the primary key), the singleton `manifest` row and the
`manifest_entries` table.  SQL statements are modelled as pure functions
on `Store`; each function carries the name of the Python function it
embeds.  `REGEXP` is the custom SQLite function `_regexp_function`,
backed here by a small executable regex engine covering the regex subset
this repository generates and validates (literals, escapes, `\d`, `.`,
character classes with ranges, the quantifiers `? * +`, and the `^`/`$`
anchors added by the manifest compiler); a pattern outside the supported
subset compiles to `none`, which models `re.error`.
-/

namespace GcsLister

/-! ### Regex engine backing `_regexp_function` -/

/-- One matchable regex item: a literal character, the class `\d`,
the dot (any character except newline), or a character class. -/
inductive RItem where
  | lit (c : Char)
  | digit
  | anyc
  | cls (atoms : List (Char × Char))
deriving DecidableEq

/-- Quantifier attached to an item: exactly once, `?`, `*` or `+`. -/
inductive RQuant where
  | one
  | opt
  | star
  | plus
deriving DecidableEq

/-- A token is an item with its quantifier. -/
abbrev RToken := RItem × RQuant

/-- Does a character match an item?  A class atom `(a, b)` is the range
`a-b`; a literal class member `c` is stored as the range `(c, c)`. -/
def itemMatch : RItem → Char → Bool
  | RItem.lit c, d => c = d
  | RItem.digit, d => d.isDigit
  | RItem.anyc, d => d ≠ '\n'
  | RItem.cls atoms, d => atoms.any fun p => decide (p.1 ≤ d) && decide (d ≤ p.2)

/-- Backtracking matcher with explicit fuel (structural recursion so
that concrete matches reduce in the kernel): does the token list match
the whole character list?  Every recursive call strictly decreases
`ts.length + cs.length`, so fuel `ts.length + cs.length + 1` never runs
out and the fuel-free wrapper below has the full backtracking semantics
of `re`. -/
def matchTokensF : Nat → List RToken → List Char → Bool
  | 0, _, _ => false
  | _ + 1, [], [] => true
  | _ + 1, [], _ :: _ => false
  | _ + 1, (_, RQuant.one) :: _, [] => false
  | fuel + 1, (it, RQuant.one) :: ts, c :: cs => itemMatch it c && matchTokensF fuel ts cs
  | fuel + 1, (_, RQuant.opt) :: ts, [] => matchTokensF fuel ts []
  | fuel + 1, (it, RQuant.opt) :: ts, c :: cs =>
      matchTokensF fuel ts (c :: cs) || (itemMatch it c && matchTokensF fuel ts cs)
  | fuel + 1, (_, RQuant.star) :: ts, [] => matchTokensF fuel ts []
  | fuel + 1, (it, RQuant.star) :: ts, c :: cs =>
      matchTokensF fuel ts (c :: cs) ||
        (itemMatch it c && matchTokensF fuel ((it, RQuant.star) :: ts) cs)
  | _ + 1, (_, RQuant.plus) :: _, [] => false
  | fuel + 1, (it, RQuant.plus) :: ts, c :: cs =>
      itemMatch it c && matchTokensF fuel ((it, RQuant.star) :: ts) cs

/-- The backtracking matcher. -/
def matchTokens (ts : List RToken) (cs : List Char) : Bool :=
  matchTokensF (ts.length + cs.length + 1) ts cs

/-- Parse the body of a character class after `[`, returning the atoms
and the input after the closing `]`.  Ranges `a-b` are recognised when
the `-` is not the last character before `]`; a `-` that cannot form a
range is a literal, as in Python.  Backslashes and negated classes are
outside the supported subset. -/
def parseClassAtoms : Nat → List Char → Option (List (Char × Char) × List Char)
  | 0, _ => none
  | _ + 1, [] => none
  | _ + 1, [_] => none
  | fuel + 1, c :: d :: rest =>
    if c = ']' then some ([], d :: rest)
    else if c = '\\' ∨ c = '^' then none
    else if d = ']' then some ([(c, c)], rest)
    else
      match rest with
      | [] => none
      | e :: rest' =>
        if d = '-' ∧ e ≠ ']' then
          (parseClassAtoms fuel rest').map fun pr => ((c, e) :: pr.1, pr.2)
        else
          (parseClassAtoms fuel (d :: e :: rest')).map fun pr => ((c, c) :: pr.1, pr.2)

/-- Read an optional quantifier character. -/
def parseQuant : List Char → RQuant × List Char
  | '?' :: rest => (RQuant.opt, rest)
  | '*' :: rest => (RQuant.star, rest)
  | '+' :: rest => (RQuant.plus, rest)
  | rest => (RQuant.one, rest)

/-- Parse a regex body (anchors already stripped) into tokens.
Constructs outside the supported subset (groups, alternation, counted
repetition, inner anchors, most escapes) yield `none`, which
`_regexp_function` treats like `re.error`. -/
def parseTokens : Nat → List Char → Option (List RToken)
  | 0, _ => none
  | _ + 1, [] => some []
  | fuel + 1, c :: rest =>
    if c = '\\' then
      match rest with
      | [] => none
      | d :: rest' =>
        let it? : Option RItem :=
          if d = 'd' then some RItem.digit
          else if d.isAlpha ∨ d.isDigit then none
          else some (RItem.lit d)
        match it? with
        | none => none
        | some it =>
          let q := parseQuant rest'
          (parseTokens fuel q.2).map fun ts => (it, q.1) :: ts
    else if c = '[' then
      match parseClassAtoms (rest.length + 1) rest with
      | none => none
      | some (atoms, rest') =>
        if atoms.isEmpty then none
        else
          let q := parseQuant rest'
          (parseTokens fuel q.2).map fun ts => (RItem.cls atoms, q.1) :: ts
    else if c = '*' ∨ c = '+' ∨ c = '?' ∨ c = '(' ∨ c = ')' ∨ c = '|' ∨ c = '\x7b' ∨
        c = '\x7d' ∨ c = '^' ∨ c = '$' ∨ c = ']' then none
    else
      let it := if c = '.' then RItem.anyc else RItem.lit c
      let q := parseQuant rest
      (parseTokens fuel q.2).map fun ts => (it, q.1) :: ts

/-- A compiled pattern: optional start/end anchors around a token list. -/
structure CompiledRegex where
  anchoredStart : Bool
  toks : List RToken
  anchoredEnd : Bool
deriving DecidableEq

/-- Strip a trailing `$` anchor (not preceded by a backslash). -/
def stripEndAnchor (cs : List Char) : Bool × List Char :=
  match cs.reverse with
  | '$' :: '\\' :: _ => (false, cs)
  | '$' :: r => (true, r.reverse)
  | _ => (false, cs)

/-- Model of `re.compile` for the subset of patterns this repository
produces and validates; returns `none` where CPython raises `re.error`
or where the pattern falls outside the supported subset. -/
def reCompile (p : String) : Option CompiledRegex :=
  let cs := p.data
  let start := match cs with
    | '^' :: r => (true, r)
    | _ => (false, cs)
  let stop := stripEndAnchor start.2
  (parseTokens (stop.2.length + 1) stop.2).map fun ts => ⟨start.1, ts, stop.1⟩

/-- Model of `re.search`: the compiled pattern must match some substring
of the text, restricted at either end by the anchors. -/
def reSearch (r : CompiledRegex) (text : List Char) : Bool :=
  match r.anchoredStart, r.anchoredEnd with
  | true, true => matchTokens r.toks text
  | true, false =>
      (List.range (text.length + 1)).any fun i => matchTokens r.toks (text.take i)
  | false, true =>
      (List.range (text.length + 1)).any fun i => matchTokens r.toks (text.drop i)
  | false, false =>
      (List.range (text.length + 1)).any fun i =>
        (List.range (text.length - i + 1)).any fun j =>
          matchTokens r.toks ((text.drop i).take j)

/-- `src/app/db.py` `_regexp_function`: the custom `REGEXP` function
registered on every SQLite connection.  Returns `0` when the pattern or
the text is empty (falsy), `0` when the pattern does not compile
(`re.error` is swallowed), and otherwise `1` iff `re.search` succeeds. -/
def regexpFunction (pattern text : String) : Nat :=
  if pattern = "" ∨ text = "" then 0
  else
    match reCompile pattern with
    | none => 0
    | some r => if reSearch r text.data then 1 else 0

/-! ### Data model: one fetch database (`Store`) -/

/-- A row of the `objects` table (`name` is the primary key). -/
structure ObjectRow where
  name : String
  size : Nat
  updated : String
  time_created : Option String
  custom_time : Option String
  manifest_entry_id : Option Nat
deriving DecidableEq

/-- One element of the batch handed to `insert_objects_batch`
(the `obj_data` dictionary built in `FetchManager._run_fetch`);
`updated` is optional there and the column is `NOT NULL`. -/
structure ObjData where
  name : String
  size : Nat
  updated : Option String
  time_created : Option String
  custom_time : Option String
deriving DecidableEq

/-- The singleton `fetch` row.  The floating-point `db_size_mb` column
is omitted from the model (filesystem size, never referenced by a
claim). -/
structure FetchRow where
  bucket_name : String
  pfx : Option String
  started_at : String
  ended_at : Option String
  record_count : Nat
  status : String
  error : Option String
deriving DecidableEq

/-- The singleton `manifest` row (with the migrated `status` column). -/
structure ManifestRow where
  url : String
  hash : String
  date_added : String
  pattern_count : Nat
  status : String
deriving DecidableEq

/-- A row of the `manifest_entries` table; `id` is the AUTOINCREMENT
primary key. -/
structure ManifestEntry where
  id : Nat
  mapping_key : String
  pretty_name : String
  destination : String
  regex_pattern : String
deriving DecidableEq

/-- The full state of one fetch database.  `nextEntryId` models the
AUTOINCREMENT sequence of `manifest_entries` (SQLite never reuses ids
after `DELETE`). -/
structure Store where
  fetch : FetchRow
  objects : List ObjectRow
  manifest : Option ManifestRow
  manifest_entries : List ManifestEntry
  nextEntryId : Nat
deriving DecidableEq

/-- `DatabaseManager.create_fetch_db`: fresh schema plus the initial
`running` fetch row. -/
def create_fetch_db (bucket_name : String) (pfx : Option String) (started_at : String) : Store :=
  { fetch := ⟨bucket_name, pfx, started_at, none, 0, "running", none⟩
    objects := []
    manifest := none
    manifest_entries := []
    nextEntryId := 1 }

/-! ### `objects` writes -/

/-- The row inserted for one batch element: `INSERT OR REPLACE` lists
only the five data columns, so `manifest_entry_id` is `NULL` in the new
row.  The `updated` value is only read under the `NOT NULL` guard of
`insert_objects_batch`, where it is always present. -/
def mkObjectRow (d : ObjData) : ObjectRow :=
  ⟨d.name, d.size, d.updated.getD "", d.time_created, d.custom_time, none⟩

/-- One `INSERT OR REPLACE` keyed by `name`: the existing row with that
primary key is deleted and the fresh row appended. -/
def upsertOne (objs : List ObjectRow) (d : ObjData) : List ObjectRow :=
  (objs.filter fun o => !(o.name == d.name)) ++ [mkObjectRow d]

/-- The `executemany` of `insert_objects_batch`, row by row in batch
order. -/
def upsertBatch (objs : List ObjectRow) (batch : List ObjData) : List ObjectRow :=
  batch.foldl upsertOne objs

/-- `DatabaseManager.insert_objects_batch`: the whole batch is one
implicit transaction; a `NULL` `updated` value violates the `NOT NULL`
constraint, the exception aborts the statement and nothing from the
batch persists. -/
def insert_objects_batch (s : Store) (batch : List ObjData) : Except String Store :=
  if batch.all fun d => d.updated.isSome then
    Except.ok { s with objects := upsertBatch s.objects batch }
  else
    Except.error "NOT NULL constraint failed: objects.updated"

/-- `DatabaseManager.update_fetch_status`: partial update of the
singleton fetch row — only the supplied fields change. -/
def update_fetch_status (s : Store) (status : String) (ended_at : Option String)
    (record_count : Option Nat) (error : Option String) : Store :=
  { s with
    fetch :=
      { s.fetch with
        status := status
        ended_at := match ended_at with
          | some t => some t
          | none => s.fetch.ended_at
        record_count := record_count.getD s.fetch.record_count
        error := match error with
          | some e => some e
          | none => s.fetch.error } }

/-! ### Query/Filter engine (`get_objects_page`) -/

/-- Strict lexicographic order on character lists: SQLite's binary
collation on TEXT (UTF-8 byte order coincides with code-point order). -/
def strLtChars : List Char → List Char → Bool
  | [], [] => false
  | [], _ :: _ => true
  | _ :: _, [] => false
  | a :: as, b :: bs => if a = b then strLtChars as bs else decide (a < b)

/-- Reflexive lexicographic order on character lists. -/
def strLeChars : List Char → List Char → Bool
  | [], _ => true
  | _ :: _, [] => false
  | a :: as, b :: bs => if a = b then strLeChars as bs else decide (a < b)

/-- SQLite TEXT `<`. -/
def strLt (s t : String) : Bool := strLtChars s.data t.data

/-- SQLite TEXT `<=`. -/
def strLe (s t : String) : Bool := strLeChars s.data t.data

/-- Python `str.lower` (per character, as the route's boolean parsing
uses it on ASCII tokens). -/
def strToLower (s : String) : String := String.mk (s.data.map Char.toLower)

/-- The JSON page returned by `get_objects_page`. -/
structure PageResult where
  items : List ObjectRow
  total : Nat
  page : Nat
  page_size : Nat
deriving DecidableEq

/-- `ORDER BY name ASC` (binary collation on TEXT). -/
def nameLe (a b : ObjectRow) : Prop := strLe a.name b.name = true

instance : DecidableRel nameLe := fun a b =>
  inferInstanceAs (Decidable (strLe a.name b.name = true))

/-- Totality of the lexicographic order (used by the sort model). -/
def strLeChars_total : ∀ as bs : List Char, strLeChars as bs = true ∨ strLeChars bs as = true
  | [], [] => Or.inl rfl
  | [], _ :: _ => Or.inl rfl
  | _ :: _, [] => Or.inr rfl
  | a :: as, b :: bs => by
    by_cases h : a = b
    · subst h
      rcases strLeChars_total as bs with h1 | h1
      · left
        simpa [strLeChars] using h1
      · right
        simpa [strLeChars] using h1
    · rcases lt_or_gt_of_ne h with hlt | hgt
      · left
        simp [strLeChars, h, hlt]
      · right
        have h2 : ¬b = a := fun e => h e.symm
        simp [strLeChars, h2, hgt]

/-- Transitivity of the lexicographic order (used by the sort model). -/
def strLeChars_trans : ∀ as bs cs : List Char,
    strLeChars as bs = true → strLeChars bs cs = true → strLeChars as cs = true
  | [], _, _ => fun _ _ => rfl
  | _ :: _, [], _ => fun h1 _ => absurd h1 (by simp [strLeChars])
  | _ :: _, _ :: _, [] => fun _ h2 => absurd h2 (by simp [strLeChars])
  | a :: as, b :: bs, c :: cs => fun h1 h2 => by
    by_cases hab : a = b <;> by_cases hbc : b = c
    · subst hab
      subst hbc
      simp only [strLeChars, if_pos rfl] at h1 h2 ⊢
      exact strLeChars_trans as bs cs h1 h2
    · subst hab
      simp only [strLeChars, if_pos rfl] at h1
      simp only [strLeChars, if_neg hbc] at h2 ⊢
      exact h2
    · subst hbc
      simp only [strLeChars, if_neg hab] at h1 ⊢
      exact h1
    · simp only [strLeChars, if_neg hab] at h1
      simp only [strLeChars, if_neg hbc] at h2
      have hac : a < c := lt_trans (by simpa using h1) (by simpa using h2)
      have hne : ¬a = c := ne_of_lt hac
      simp [strLeChars, hne, hac]

instance : IsTotal ObjectRow nameLe :=
  ⟨fun a b => strLeChars_total a.name.data b.name.data⟩

instance : IsTrans ObjectRow nameLe :=
  ⟨fun a b c => strLeChars_trans a.name.data b.name.data c.name.data⟩

/-- `ORDER BY name DESC`. -/
def nameDescLe (a b : ObjectRow) : Prop := strLe b.name a.name = true

instance : DecidableRel nameDescLe := fun a b =>
  inferInstanceAs (Decidable (strLe b.name a.name = true))

/-- SQLite comparison on a nullable TEXT column: `NULL` sorts before
every value in ascending order. -/
def optTimeLeB (x y : Option String) : Bool :=
  match x, y with
  | none, _ => true
  | some _, none => false
  | some a, some b => strLe a b

/-- `ORDER BY time_created ASC` (NULLs first). -/
def timeAscLe (a b : ObjectRow) : Prop := optTimeLeB a.time_created b.time_created = true

instance : DecidableRel timeAscLe := fun a b =>
  inferInstanceAs (Decidable (optTimeLeB a.time_created b.time_created = true))

/-- `ORDER BY time_created DESC` (NULLs last). -/
def timeDescLe (a b : ObjectRow) : Prop := optTimeLeB b.time_created a.time_created = true

instance : DecidableRel timeDescLe := fun a b =>
  inferInstanceAs (Decidable (optTimeLeB b.time_created a.time_created = true))

/-- The `ORDER BY` clause of `get_objects_page`: the three recognised
sort values, anything else falling back to `name ASC`.  SQL sorting is
modelled by insertion sort (a sorted permutation). -/
def sortObjects (sort : String) (l : List ObjectRow) : List ObjectRow :=
  if sort = "name_desc" then List.insertionSort nameDescLe l
  else if sort = "time_created_desc" then List.insertionSort timeDescLe l
  else if sort = "time_created_asc" then List.insertionSort timeAscLe l
  else List.insertionSort nameLe l

/-- The regex pattern list assembled by `get_objects_page`: the optional
single `regex_filter` (if truthy) followed by the non-empty members of
`regex_filters`. -/
def allRegexPatterns (regex_filter : Option String) (regex_filters : List String) :
    List String :=
  (match regex_filter with
    | some f => if f = "" then [] else [f]
    | none => []) ++ regex_filters.filter fun f => !(f == "")

/-- The `WHERE` clause of `get_objects_page` as a row predicate.
The three filtering strategies are mutually exclusive, in this order:
`use_manifest_filtering` (a `JOIN` on `manifest_entry_id`), else
`exclude_manifest_matches` (`manifest_entry_id IS NULL`), else the
`OR`-joined `REGEXP` conditions.  The date and custom-time conditions
are appended in every strategy. -/
def pageFilterPred (entries : List ManifestEntry) (regex_filter : Option String)
    (regex_filters : List String) (created_before : Option String)
    (has_custom_time : Option String) (use_manifest_filtering : Bool)
    (exclude_manifest_matches : Bool) (o : ObjectRow) : Bool :=
  let strategyOk :=
    if use_manifest_filtering then
      entries.any fun me => o.manifest_entry_id == some me.id
    else if exclude_manifest_matches then
      o.manifest_entry_id.isNone
    else
      let pats := allRegexPatterns regex_filter regex_filters
      pats.isEmpty || pats.any fun p => regexpFunction p o.name == 1
  let dateOk :=
    match created_before with
    | none => true
    | some cb =>
      if cb = "" then true
      else
        match o.time_created with
        | some t => strLt t cb
        | none => false
  let customOk :=
    match has_custom_time with
    | none => true
    | some v =>
      if v = "" then true
      else if strToLower v = "true" ∨ strToLower v = "yes" then o.custom_time.isSome
      else o.custom_time.isNone
  strategyOk && dateOk && customOk

/-- `DatabaseManager.get_objects_page`: filter, count under the same
predicate, sort, then `LIMIT page_size OFFSET (page-1)*page_size`. -/
def get_objects_page (s : Store) (page page_size : Nat) (regex_filter : Option String)
    (sort : String) (created_before : Option String) (has_custom_time : Option String)
    (regex_filters : List String) (use_manifest_filtering : Bool)
    (exclude_manifest_matches : Bool) : PageResult :=
  let filtered := s.objects.filter
    (pageFilterPred s.manifest_entries regex_filter regex_filters created_before
      has_custom_time use_manifest_filtering exclude_manifest_matches)
  let sorted := sortObjects sort filtered
  { items := (sorted.drop ((page - 1) * page_size)).take page_size
    total := filtered.length
    page := page
    page_size := page_size }

/-! ### Manifest storage and linking -/

/-- `DatabaseManager.get_current_manifest` (the singleton row, already
migrated in this model). -/
def get_current_manifest (s : Store) : Option ManifestRow := s.manifest

/-- Resetting one object's link (`UPDATE objects SET manifest_entry_id
= NULL`). -/
def clearObj (o : ObjectRow) : ObjectRow := { o with manifest_entry_id := none }

/-- `DatabaseManager.clear_manifest_links`. -/
def clear_manifest_links (s : Store) : Store :=
  { s with objects := s.objects.map clearObj }

/-- One candidate entry handed to `store_manifest` (a `pattern_data`
dictionary). -/
structure PatternData where
  mapping_key : String
  pretty_name : String
  destination : String
  regex_pattern : String
deriving DecidableEq

/-- Insert candidates as `manifest_entries` rows with consecutive
AUTOINCREMENT ids starting at `n`. -/
def assignIds : Nat → List PatternData → List ManifestEntry
  | _, [] => []
  | n, p :: ps => ⟨n, p.mapping_key, p.pretty_name, p.destination, p.regex_pattern⟩ ::
      assignIds (n + 1) ps

/-- `DatabaseManager.store_manifest`: when the stored hash differs,
clear all object links, replace all entries and the manifest row
(status `idle`); when it is identical, do nothing. -/
def store_manifest (s : Store) (url manifest_hash now : String)
    (patterns : List PatternData) : Store :=
  let current_hash := (get_current_manifest s).map fun m => m.hash
  if current_hash = some manifest_hash then s
  else
    { s with
      objects := s.objects.map clearObj
      manifest_entries := assignIds s.nextEntryId patterns
      nextEntryId := s.nextEntryId + patterns.length
      manifest := some ⟨url, manifest_hash, now, patterns.length, "idle"⟩ }

/-- `UPDATE manifest SET status = ? WHERE id = 1` (no-op when the
singleton row does not exist). -/
def setManifestStatus (s : Store) (st : String) : Store :=
  { s with manifest := s.manifest.map fun m => { m with status := st } }

/-- `a.id ≤ b.id`: the `ORDER BY id` of the linker's entry query. -/
def entryIdLe (a b : ManifestEntry) : Prop := a.id ≤ b.id

instance : DecidableRel entryIdLe := fun a b => inferInstanceAs (Decidable (a.id ≤ b.id))

instance : IsTotal ManifestEntry entryIdLe := ⟨fun a b => Nat.le_total a.id b.id⟩

instance : IsTrans ManifestEntry entryIdLe := ⟨fun _ _ _ h h' => Nat.le_trans h h'⟩

/-- `SELECT id, regex_pattern, pretty_name FROM manifest_entries ORDER
BY id`. -/
def sortEntriesById (es : List ManifestEntry) : List ManifestEntry :=
  List.insertionSort entryIdLe es

/-- The conditional `UPDATE` of the linker applied to one row: assign
the entry's id iff the name matches the entry's pattern and the row is
currently unassigned. -/
def linkStep (e : ManifestEntry) (o : ObjectRow) : ObjectRow :=
  if o.manifest_entry_id = none ∧ regexpFunction e.regex_pattern o.name = 1 then
    { o with manifest_entry_id := some e.id }
  else o

/-- The linker's per-entry loop over the whole `objects` table. -/
def linkPassObjects (es : List ManifestEntry) (objs : List ObjectRow) : List ObjectRow :=
  es.foldl (fun os e => os.map (linkStep e)) objs

/-- The effect of the entry list on a single row (the loop commutes
with the per-row view because each `UPDATE` touches each row once). -/
def linkObj (es : List ManifestEntry) (o : ObjectRow) : ObjectRow :=
  es.foldl (fun o e => linkStep e o) o

/-- The statistics dictionary returned by the linker. -/
structure LinkStats where
  total_objects : Nat
  linked_objects : Nat
deriving DecidableEq

/-- `DatabaseManager.link_objects_to_manifest_entries`: set status
`processing`, fetch entries ordered by id, return `{0, 0}` early when
there are none (leaving status `processing`), otherwise run the
conditional update per entry in ascending id order, set status back to
`idle` and count. -/
def link_objects_to_manifest_entries (s : Store) : Store × LinkStats :=
  let s1 := setManifestStatus s "processing"
  let entries := sortEntriesById s1.manifest_entries
  if entries.isEmpty then (s1, ⟨0, 0⟩)
  else
    let objs := linkPassObjects entries s1.objects
    let s2 := setManifestStatus { s1 with objects := objs } "idle"
    (s2, ⟨objs.length, objs.countP fun o => o.manifest_entry_id.isSome⟩)

/-! ### Pattern compiler (`src/app/api/manifest.py`) -/

/-- Python `str.replace` on character lists: scan left to right,
replacing non-overlapping occurrences of `pat`. -/
def strReplaceAux (pat rep : List Char) : Nat → List Char → List Char
  | _, [] => []
  | 0, l => l
  | fuel + 1, c :: cs =>
    if !pat.isEmpty && pat.isPrefixOf (c :: cs) then
      rep ++ strReplaceAux pat rep fuel ((c :: cs).drop pat.length)
    else
      c :: strReplaceAux pat rep fuel cs

/-- Python `str.replace` (model over `String`). -/
def pyReplace (s pat rep : String) : String :=
  String.mk (strReplaceAux pat.data rep.data s.data.length s.data)

/-- The characters `re.escape` prefixes with a backslash
(CPython's `_special_chars_map`). -/
def pyEscapeChars : List Char :=
  ['(', ')', '[', ']', '\x7b', '\x7d', '?', '*', '+', '-', '|', '^', '$', '\\',
   '.', '&', '~', '#', ' ', '\t', '\n', '\r', '\x0b', '\x0c']

/-- Python `re.escape`. -/
def pyEscape (s : String) : String :=
  String.mk (s.data.foldr (fun c acc =>
    if pyEscapeChars.contains c then '\\' :: c :: acc else c :: acc) [])

/-- `MANIFEST_VARIABLES_REGEX`: template variable name, placeholder
token, regex fragment. -/
def MANIFEST_VARIABLES_REGEX : List (String × String × String) :=
  [("build_number", "__BUILD_PATTERN__", "\\d+"),
   ("path_platform", "__PLATFORM_PATTERN__", "[A-Za-z0-9-_]+"),
   ("tools_platform", "__PLATFORM_PATTERN__", "[A-Za-z0-9-_]+"),
   ("locale", "__LOCALE_PATTERN__", "[A-Za-z-]+"),
   ("previous_version", "__VERSION_PATTERN__", "\\d+\\.\\d+b?\\d?"),
   ("version", "__VERSION_PATTERN__", "\\d+\\.\\d+b?\\d?"),
   ("source_path_mod", "__SPM__", "[A-Za-z0-9-_]*/?")]

/-- The `$\x7bname\x7d` token substituted in candidate paths. -/
def varToken (name : String) : String := "$\x7b" ++ name ++ "\x7d"

/-- Substitute every template variable by its placeholder token
(the `in`-guarded `replace` loop; `replace` on an absent substring is a
no-op). -/
def substituteVars (path : String) : String :=
  MANIFEST_VARIABLES_REGEX.foldl (fun s v => pyReplace s (varToken v.1) v.2.1) path

/-- Replace every placeholder token by its regex fragment. -/
def restoreVars (pat : String) : String :=
  MANIFEST_VARIABLES_REGEX.foldl (fun s v => pyReplace s v.2.1 v.2.2) pat

/-- The pattern compiled for one `(bucket_path, destination,
pretty_name)` triple — the body shared verbatim by
`parse_manifest_patterns` and the storage loop of
`fetch_and_parse_manifest`: build
`{bucket_path}/{destination}/__SPM__{pretty_name}`, substitute
variables, `re.escape` the rest, restore the placeholders and anchor. -/
def compilePattern (bucket_path destination pretty_name : String) : String :=
  let full_path := bucket_path ++ "/" ++ destination ++ "/" ++ "__SPM__" ++ pretty_name
  let full_path := substituteVars full_path
  let pattern := pyEscape full_path
  let pattern := restoreVars pattern
  "^" ++ pattern ++ "$"

/-- One artifact record of the manifest's `mapping` section.  `expiry`
is the truthiness of the `expiry` field; an absent `destinations` list
is the empty list; an absent `pretty_name` is `""`. -/
structure ArtifactConfig where
  expiry : Bool
  destinations : List String
  pretty_name : String
deriving DecidableEq

/-- A parsed manifest document (the YAML mapping), together with the
raw response text that is hashed for caching.  `bucket_path` is
`s3_bucket_paths` after the `by-platform` default resolution. -/
structure ManifestDoc where
  raw : String
  bucket_path : String
  default_destinations : List String
  mapping : List (String × ArtifactConfig)
deriving DecidableEq

/-- The destination list for one artifact: its own `destinations`,
falling back to the document default when falsy. -/
def resolveDestinations (doc : ManifestDoc) (config : ArtifactConfig) : List String :=
  if config.destinations.isEmpty then doc.default_destinations else config.destinations

/-- Add a pattern to the result set (`set.add`: insert if absent). -/
def addPattern (pats : List String) (p : String) : List String :=
  if pats.contains p then pats else pats ++ [p]

/-- `parse_manifest_patterns`: the compiler's deduplicated pattern set
(a Python `set`, modelled as an insertion-ordered duplicate-free
list).  Artifacts without `expiry`, without a resolvable destination
list, or without `pretty_name` are skipped. -/
def parse_manifest_patterns (doc : ManifestDoc) : List String :=
  doc.mapping.foldl (fun pats kv =>
    let config := kv.2
    if !config.expiry then pats
    else
      let destinations := resolveDestinations doc config
      if destinations.isEmpty then pats
      else if config.pretty_name = "" then pats
      else
        destinations.foldl (fun pats destination =>
          addPattern pats (compilePattern doc.bucket_path destination config.pretty_name))
          pats) []

/-- The `pattern_entries` list built inside `fetch_and_parse_manifest`
for storage: one candidate per artifact/destination, `pretty_name` used
as the mapping key, and no deduplication. -/
def buildPatternEntries (doc : ManifestDoc) : List PatternData :=
  doc.mapping.foldl (fun acc kv =>
    let config := kv.2
    if !config.expiry then acc
    else if config.pretty_name = "" then acc
    else
      let destinations := resolveDestinations doc config
      acc ++ destinations.map fun destination =>
        ⟨config.pretty_name, config.pretty_name, destination,
          compilePattern doc.bucket_path destination config.pretty_name⟩) []

/-- SHA-256 of the response text, modelled as the text itself: the
claims only rely on equal content giving an equal hash, and the model
makes the hash collision-free. -/
def sha256Model (text : String) : String := text

/-- The result dictionary of `fetch_and_parse_manifest` (success path;
transport and YAML failures are outside the model, which receives the
already-parsed document). -/
structure ParseResult where
  patterns : List String
  artifact_count : Nat
  patterns_count : Nat
  cached : Bool
deriving DecidableEq

/-- `fetch_and_parse_manifest` with a database attached: hash the raw
text; if the stored manifest has the identical hash, return the stored
patterns with `cached = true` and touch nothing; otherwise compile and
store the new manifest (`now` is the wall-clock `date_added`). -/
def fetch_and_parse_manifest (url now : String) (doc : ManifestDoc) (s : Store) :
    Store × ParseResult :=
  let manifest_hash := sha256Model doc.raw
  let cachedHit := match get_current_manifest s with
    | some m => m.hash == manifest_hash
    | none => false
  if cachedHit then
    let patterns := s.manifest_entries.map fun e => e.regex_pattern
    (s, ⟨patterns, ((get_current_manifest s).map fun m => m.pattern_count).getD 0,
      patterns.length, true⟩)
  else
    let patterns := parse_manifest_patterns doc
    let pattern_entries := buildPatternEntries doc
    let s := store_manifest s url manifest_hash now pattern_entries
    (s, ⟨patterns, doc.mapping.length, patterns.length, false⟩)

/-- The response of the `/manifest/parse` route. -/
structure RouteResult where
  patterns : List String
  artifact_count : Nat
  patterns_count : Nat
  cached : Bool
  linking_stats : LinkStats
deriving DecidableEq

/-- `manifest_routes.parse_manifest` (with a database name supplied):
clear existing links when a manifest is present, fetch/parse/store, then
link objects to the (possibly cached) entries. -/
def parse_manifest_route (url now : String) (doc : ManifestDoc) (s : Store) :
    Store × RouteResult :=
  let s1 := if (get_current_manifest s).isSome then clear_manifest_links s else s
  let fp := fetch_and_parse_manifest url now doc s1
  let linked := link_objects_to_manifest_entries fp.1
  (linked.1, ⟨fp.2.patterns, fp.2.artifact_count, fp.2.patterns_count, fp.2.cached, linked.2⟩)

/-! ### Fetch orchestrator (`src/app/fetcher.py`) -/

/-- One blob yielded by the external object lister; optional fields
mirror `blob.size or 0` and the `isoformat() if ... else None`
conversions in `_run_fetch`. -/
structure Blob where
  name : String
  size : Option Nat
  updated : Option String
  time_created : Option String
  custom_time : Option String
deriving DecidableEq

/-- The `obj_data` dictionary built for one blob. -/
def blobToObj (b : Blob) : ObjData :=
  ⟨b.name, b.size.getD 0, b.updated, b.time_created, b.custom_time⟩

/-- The streaming ingestion loop of `FetchManager._run_fetch`:
accumulate batches of 1000, upsert each full batch and write a running
progress count; on exhaustion flush the trailing batch and mark the run
`success`; an insert failure is caught and recorded as status `error`
with the count reached.  `endT` is the wall clock read at termination. -/
def runFetchLoop (endT : String) : Store → List Blob → List ObjData → Nat → Store
  | s, [], batch, cnt =>
    if batch.isEmpty then
      update_fetch_status s "success" (some endT) (some cnt) none
    else
      match insert_objects_batch s batch with
      | Except.ok s' => update_fetch_status s' "success" (some endT) (some cnt) none
      | Except.error e => update_fetch_status s "error" (some endT) (some cnt) (some e)
  | s, b :: bs, batch, cnt =>
    let batch' := batch ++ [blobToObj b]
    let cnt' := cnt + 1
    if 1000 ≤ batch'.length then
      match insert_objects_batch s batch' with
      | Except.ok s' =>
        runFetchLoop endT (update_fetch_status s' "running" none (some cnt') none) bs [] cnt'
      | Except.error e => update_fetch_status s "error" (some endT) (some cnt') (some e)
    else
      runFetchLoop endT s bs batch' cnt'

/-- `FetchManager._run_fetch` on a freshly created store. -/
def runFetch (endT : String) (s : Store) (blobs : List Blob) : Store :=
  runFetchLoop endT s blobs [] 0

/-- The store a successful ingestion run terminates with: the whole
stream upserted and the fetch row marked `success` with its end
timestamp and final count (shape used to state the loop invariant). -/
def runSuccessStore (s : Store) (endT : String) (cnt : Nat) (batch : List ObjData) : Store :=
  Store.mk
    (FetchRow.mk s.fetch.bucket_name s.fetch.pfx s.fetch.started_at (some endT) cnt
      "success" s.fetch.error)
    (upsertBatch s.objects batch) s.manifest s.manifest_entries s.nextEntryId

/-- The in-process fields of `FetchManager` guarded by `_thread_lock`,
plus the lock file and the store directory.  Calls are modelled as
atomic transitions, which is what the mutex enforces. -/
structure CurrentFetch where
  db_name : String
  bucket_name : String
  pfx : Option String
  started_at : String
deriving DecidableEq

/-- Process-wide fetch-manager state. -/
structure FetchManagerState where
  currentFetch : Option CurrentFetch
  lockFileExists : Bool
  dbs : List (String × Store)
deriving DecidableEq

/-- `FetchManager._is_fetch_running_locked`: in-memory run state AND
lock-file presence. -/
def is_fetch_running_locked (st : FetchManagerState) : Bool :=
  st.currentFetch.isSome && st.lockFileExists

/-- The `{db_name, started_at}` response of a successful start. -/
structure StartResult where
  db_name : String
  started_at : String
deriving DecidableEq

/-- `FetchManager.start_fetch`, one atomic critical section: fail with
`RuntimeError("Fetch already running")` before any mutation when a run
is active; otherwise create the lock file, record the current fetch
(`db_name` is derived from the start timestamp by `create_db_name`),
create the backing store and return.  The background thread it launches
is `runFetch`, modelled separately. -/
def start_fetch (st : FetchManagerState) (bucket_name : String) (pfx : Option String)
    (now : String) : FetchManagerState × Except String StartResult :=
  if is_fetch_running_locked st then
    (st, Except.error "Fetch already running")
  else
    let db_name := now
    let st := { st with lockFileExists := true }
    let st := { st with currentFetch := some ⟨db_name, bucket_name, pfx, now⟩ }
    let st := { st with dbs := st.dbs ++ [(db_name, create_fetch_db bucket_name pfx now)] }
    (st, Except.ok ⟨db_name, now⟩)

/-! ### Auxiliary predicates and concrete fixtures -/

/-- Does the batch contain an element whose `name` is `n`?  (The key
set affected by an `INSERT OR REPLACE` batch.) -/
def hasName (batch : List ObjData) (n : String) : Bool :=
  batch.any fun e => n == e.name

/-- Distinct path-safe object names for the 1500-object scenario. -/
def wName (i : Nat) : String := String.mk (List.replicate i 'a')

/-- The i-th synthetic blob of the 1500-object scenario. -/
def wBlob (i : Nat) : Blob :=
  ⟨wName i, some 1, some "2024-01-01T00:00:00Z", some "2024-01-01T00:00:00Z", none⟩

/-- 1500 synthetic blobs with pairwise distinct names. -/
def wBlobs : List Blob := (List.range 1500).map wBlob

/-- A catalog row that two manifest entries both match. -/
def c2Object : ObjectRow := ⟨"ab", 7, "2024-01-01", none, none, none⟩

/-- Lower-id entry whose pattern `^a` matches `ab`. -/
def c2EntryA : ManifestEntry := ⟨1, "k1", "p1", "d1", "^a"⟩

/-- Higher-id entry whose pattern `^ab$` also matches `ab`. -/
def c2EntryB : ManifestEntry := ⟨2, "k2", "p2", "d2", "^ab$"⟩

/-- Store with one unassigned object and two overlapping entries. -/
def c2Store : Store :=
  ⟨⟨"bucket", none, "t0", none, 0, "running", none⟩, [c2Object], none,
    [c2EntryA, c2EntryB], 3⟩

/-- A store whose single object is linked to manifest entry 1 but whose
name does not match the regex filter supplied alongside
`use_manifest_filtering`. -/
def c6Store : Store :=
  ⟨⟨"bucket", none, "t0", none, 0, "success", none⟩,
    [⟨"alpha", 3, "2024-01-01", none, none, some 1⟩], none,
    [⟨1, "k", "p", "d", "unused"⟩], 2⟩

/-- A store for the amended-filter witness: one object satisfying a
regex, a date bound and custom-time presence simultaneously. -/
def c6WStore : Store :=
  ⟨⟨"bucket", none, "t0", none, 0, "success", none⟩,
    [⟨"alpha", 3, "2024-01-01", some "2020-05-05", some "2021-01-01", none⟩], none, [], 1⟩

/-- A manifest document whose two artifacts compile to the identical
pattern (same destination and `pretty_name`). -/
def c8Doc : ManifestDoc :=
  ⟨"raw-c8", "", [], [("key1", ⟨true, ["d"], "app.exe"⟩), ("key2", ⟨true, ["d"], "app.exe"⟩)]⟩

/-- The manifest document of the §8 scenario: empty bucket path,
destination `release/${version}/`, `pretty_name` `app-${version}.exe`,
expiry set. -/
def c9Doc : ManifestDoc :=
  ⟨"raw-c9", "", [],
    [("app", ⟨true, ["release/$\x7bversion\x7d/"], "app-$\x7bversion\x7d.exe"⟩)]⟩

/-- The single pattern the compiler produces for `c9Doc`. -/
def c9Pattern : String :=
  compilePattern "" "release/$\x7bversion\x7d/" "app-$\x7bversion\x7d.exe"

/-- A store whose only manifest entry carries a pattern that does not
compile (`(` raises `re.error` in CPython and is rejected by the model),
over one unassigned object. -/
def c10Store : Store :=
  ⟨⟨"bucket", none, "t0", none, 0, "success", none⟩,
    [⟨"x", 1, "2024-01-01", none, none, none⟩], none,
    [⟨1, "k", "p", "d", "("⟩], 2⟩

/-- Idle fetch-manager state: no current fetch, no lock file. -/
def c1State : FetchManagerState := ⟨none, false, []⟩

/-- A one-element batch for the upsert-idempotence witness. -/
def c4Batch : List ObjData :=
  [⟨"a", 1, some "2024-01-01", none, none⟩, ⟨"b", 2, some "2024-01-02", some "tc", none⟩]

/-- A store with one pre-existing row that `c4Batch` overwrites. -/
def c4Store : Store :=
  ⟨⟨"bucket", none, "t0", none, 0, "running", none⟩,
    [⟨"a", 99, "old", none, none, some 5⟩], none, [], 1⟩

/-- A manifest document for the caching witness computations. -/
def c7Doc : ManifestDoc :=
  ⟨"raw-c7", "pub", [], [("app", ⟨true, ["release"], "tool.exe"⟩)]⟩

/-! ### Lemmas: `INSERT OR REPLACE` batches -/

theorem upsertBatch_nil (objs : List ObjectRow) : upsertBatch objs [] = objs := rfl

theorem upsertBatch_cons (objs : List ObjectRow) (d : ObjData) (ds : List ObjData) :
    upsertBatch objs (d :: ds) = upsertBatch (upsertOne objs d) ds := rfl

theorem upsertBatch_append_batches (objs : List ObjectRow) (b1 b2 : List ObjData) :
    upsertBatch objs (b1 ++ b2) = upsertBatch (upsertBatch objs b1) b2 :=
  List.foldl_append _ _ _ _

theorem hasName_cons (d : ObjData) (ds : List ObjData) (n : String) :
    hasName (d :: ds) n = ((n == d.name) || hasName ds n) := rfl

/-- Normal form of a batch upsert: the rows whose key is untouched by
the batch, in place, followed by the rows the batch itself produces. -/
theorem upsertBatch_normal (b : List ObjData) (objs : List ObjectRow) :
    upsertBatch objs b =
      (objs.filter fun o => !(hasName b o.name)) ++ upsertBatch [] b := by
  induction b generalizing objs with
  | nil => simp [upsertBatch, hasName]
  | cons d ds ih =>
    rw [upsertBatch_cons, ih (upsertOne objs d)]
    have h2 : upsertBatch [] (d :: ds) =
        (List.filter (fun o => !(hasName ds o.name)) [mkObjectRow d]) ++ upsertBatch [] ds :=
      ih [mkObjectRow d]
    rw [h2]
    have h3 : (upsertOne objs d).filter (fun o => !(hasName ds o.name)) =
        objs.filter (fun o => !(hasName (d :: ds) o.name)) ++
          (List.filter (fun o => !(hasName ds o.name)) [mkObjectRow d]) := by
      rw [upsertOne, List.filter_append, List.filter_filter]
      congr 1
      apply List.filter_congr
      intro o _
      rw [hasName_cons, Bool.not_or]
      exact Bool.and_comm _ _
    rw [h3, List.append_assoc]

theorem mem_upsertBatch {o : ObjectRow} (b : List ObjData) (objs : List ObjectRow)
    (h : o ∈ upsertBatch objs b) : o ∈ objs ∨ hasName b o.name = true := by
  induction b generalizing objs with
  | nil => exact Or.inl h
  | cons d ds ih =>
    rcases ih (upsertOne objs d) h with h1 | h1
    · rcases List.mem_append.mp h1 with h2 | h2
      · exact Or.inl (List.mem_of_mem_filter h2)
      · have he : o = mkObjectRow d := by simpa using h2
        refine Or.inr ?_
        rw [hasName_cons, he]
        simp [mkObjectRow]
    · refine Or.inr ?_
      rw [hasName_cons, h1]
      simp

theorem filter_upsertBatch_nil (b : List ObjData) :
    (upsertBatch [] b).filter (fun o => !(hasName b o.name)) = [] := by
  rw [List.filter_eq_nil_iff]
  intro o ho
  rcases mem_upsertBatch b [] ho with h | h
  · cases h
  · simp [h]

/-- Re-applying the same batch reproduces the same object table. -/
theorem upsertBatch_idem (objs : List ObjectRow) (b : List ObjData) :
    upsertBatch (upsertBatch objs b) b = upsertBatch objs b := by
  conv_lhs => rw [upsertBatch_normal b (upsertBatch objs b)]
  rw [upsertBatch_normal b objs, List.filter_append, filter_upsertBatch_nil,
    List.append_nil, List.filter_filter]
  congr 1
  apply List.filter_congr
  intro o _
  exact Bool.and_self _

theorem length_upsertBatch_nil (b : List ObjData)
    (h : (b.map fun d => d.name).Nodup) : (upsertBatch [] b).length = b.length := by
  induction b with
  | nil => rfl
  | cons d ds ih =>
    have h1 : upsertBatch [] (d :: ds) =
        (List.filter (fun o => !(hasName ds o.name)) [mkObjectRow d]) ++ upsertBatch [] ds :=
      upsertBatch_normal ds [mkObjectRow d]
    rw [List.map_cons, List.nodup_cons] at h
    have hd : hasName ds d.name = false := by
      apply Bool.eq_false_iff.mpr
      intro hc
      obtain ⟨e, he, hbe⟩ := List.any_eq_true.mp hc
      rw [beq_iff_eq] at hbe
      exact h.1 (hbe ▸ List.mem_map_of_mem _ he)
    have h2 : List.filter (fun o => !(hasName ds o.name)) [mkObjectRow d] = [mkObjectRow d] := by
      rw [List.filter_cons]
      simp [mkObjectRow, hd]
    rw [h1, h2, List.length_append, ih h.2]
    simp [Nat.add_comm]

/-- The surviving row for a key is built from the batch's last write to
that key: if `d` is the last element of the batch carrying its name,
the upserted table holds exactly `mkObjectRow d` under that key. -/
theorem find?_upsertBatch_last (objs : List ObjectRow) (u : List ObjData) (d : ObjData)
    (v : List ObjData) (hv : ∀ e ∈ v, e.name ≠ d.name) :
    (upsertBatch objs (u ++ d :: v)).find? (fun o => o.name == d.name) =
      some (mkObjectRow d) := by
  rw [upsertBatch_append_batches, upsertBatch_cons,
    upsertBatch_normal v (upsertOne (upsertBatch objs u) d), upsertOne, List.filter_append]
  have hvd : hasName v d.name = false := by
    apply Bool.eq_false_iff.mpr
    intro hc
    obtain ⟨e, he, hbe⟩ := List.any_eq_true.mp hc
    rw [beq_iff_eq] at hbe
    exact hv e he hbe.symm
  have h2 : List.filter (fun o => !(hasName v o.name)) [mkObjectRow d] = [mkObjectRow d] := by
    rw [List.filter_cons]
    simp [mkObjectRow, hvd]
  rw [h2, List.append_assoc, List.find?_append]
  have h3 : List.find? (fun o => o.name == d.name)
      (List.filter (fun o => !(hasName v o.name))
        (List.filter (fun o => !(o.name == d.name)) (upsertBatch objs u))) = none := by
    rw [List.find?_eq_none]
    intro x hx
    have hx1 := List.mem_of_mem_filter hx
    have hx2 := (List.mem_filter.mp hx1).2
    simp only [Bool.not_eq_true'] at hx2
    simp [hx2]
  rw [h3, Option.none_or, List.find?_append, List.find?_cons_of_pos _ (by simp [mkObjectRow])]
  rfl

/-! ### C4: upsert idempotence -/

/-- C4.  Upserting a batch and upserting it again yields the same
catalog state as upserting it once: the second call succeeds with the
identical store (so the entry count is unchanged), and the row stored
under each batched name carries the fields of the batch's last write to
that name (insert-or-replace keyed by `name`). -/
theorem C4_upsert_idempotent :
    (∀ (s : Store) (b : List ObjData) (s1 : Store),
      insert_objects_batch s b = Except.ok s1 →
      insert_objects_batch s1 b = Except.ok s1) ∧
    (∀ (s : Store) (b : List ObjData) (s1 : Store) (u : List ObjData) (d : ObjData)
      (v : List ObjData),
      insert_objects_batch s b = Except.ok s1 → b = u ++ d :: v →
      (∀ e ∈ v, e.name ≠ d.name) →
      s1.objects.find? (fun o => o.name == d.name) = some (mkObjectRow d)) := by
  constructor
  · intro s b s1 h
    unfold insert_objects_batch at h ⊢
    by_cases hall : b.all (fun d => d.updated.isSome) = true
    · rw [if_pos hall] at h ⊢
      obtain rfl := (Except.ok.injEq _ _).mp h
      congr 1
      simp only
      rw [upsertBatch_idem]
    · rw [if_neg hall] at h
      cases h
  · intro s b s1 u d v h hb hv
    unfold insert_objects_batch at h
    by_cases hall : b.all (fun d => d.updated.isSome) = true
    · rw [if_pos hall] at h
      obtain rfl := (Except.ok.injEq _ _).mp h
      simp only
      rw [hb]
      exact find?_upsertBatch_last s.objects u d v hv
    · rw [if_neg hall] at h
      cases h

/-- Witness for C4 at a concrete store and two-row batch. -/
theorem C4_upsert_idempotent_witness :
    insert_objects_batch { c4Store with objects := upsertBatch c4Store.objects c4Batch }
        c4Batch =
      Except.ok { c4Store with objects := upsertBatch c4Store.objects c4Batch } ∧
    ({ c4Store with objects := upsertBatch c4Store.objects c4Batch }).objects.find?
        (fun o => o.name == "a") = some (mkObjectRow ⟨"a", 1, some "2024-01-01", none, none⟩) := by
  constructor
  · exact C4_upsert_idempotent.1 c4Store c4Batch _ rfl
  · exact C4_upsert_idempotent.2 c4Store c4Batch _ []
      ⟨"a", 1, some "2024-01-01", none, none⟩ [⟨"b", 2, some "2024-01-02", some "tc", none⟩]
      rfl rfl (by decide)

/-! ### Lemmas: the linker -/

theorem linkObj_nil (o : ObjectRow) : linkObj [] o = o := rfl

theorem linkObj_cons (e : ManifestEntry) (es : List ManifestEntry) (o : ObjectRow) :
    linkObj (e :: es) o = linkObj es (linkStep e o) := rfl

/-- The per-entry loop over the whole table equals the per-row fold. -/
theorem linkPassObjects_eq_map (es : List ManifestEntry) (objs : List ObjectRow) :
    linkPassObjects es objs = objs.map (linkObj es) := by
  induction es generalizing objs with
  | nil =>
    show objs = objs.map (linkObj [])
    symm
    calc objs.map (linkObj []) = objs.map id := List.map_congr_left fun o _ => linkObj_nil o
      _ = objs := List.map_id objs
  | cons e es ih =>
    show linkPassObjects es (objs.map (linkStep e)) = _
    rw [ih (objs.map (linkStep e)), List.map_map]
    rfl

theorem clearObj_linkStep (e : ManifestEntry) (o : ObjectRow) :
    clearObj (linkStep e o) = clearObj o := by
  unfold linkStep
  split
  · rfl
  · rfl

/-- Linking only ever touches the `manifest_entry_id` field. -/
theorem clearObj_linkObj (es : List ManifestEntry) (o : ObjectRow) :
    clearObj (linkObj es o) = clearObj o := by
  induction es generalizing o with
  | nil => rfl
  | cons e es ih => rw [linkObj_cons, ih (linkStep e o), clearObj_linkStep]

theorem linkObj_name (es : List ManifestEntry) (o : ObjectRow) :
    (linkObj es o).name = o.name := by
  have h := congrArg ObjectRow.name (clearObj_linkObj es o)
  exact h

/-- An already-assigned row is excluded by the `manifest_entry_id IS
NULL` guard of every subsequent update. -/
theorem linkObj_of_some (es : List ManifestEntry) {o : ObjectRow} {x : Nat}
    (h : o.manifest_entry_id = some x) : linkObj es o = o := by
  induction es with
  | nil => rfl
  | cons e es ih =>
    have hstep : linkStep e o = o := by
      unfold linkStep
      rw [if_neg]
      rintro ⟨h1, -⟩
      rw [h] at h1
      cases h1
    rw [linkObj_cons, hstep, ih]

/-- An unassigned row ends up linked to the first entry in processing
order whose pattern matches its name (or stays unassigned). -/
theorem linkObj_of_none (es : List ManifestEntry) {o : ObjectRow}
    (h : o.manifest_entry_id = none) :
    linkObj es o = { o with manifest_entry_id :=
      (es.find? fun e => regexpFunction e.regex_pattern o.name == 1).map fun e => e.id } := by
  induction es generalizing o with
  | nil =>
    rw [linkObj_nil, List.find?_nil]
    rw [show (Option.map (fun e => e.id) (none : Option ManifestEntry)) = none from rfl, ← h]
  | cons e es ih =>
    by_cases hm : regexpFunction e.regex_pattern o.name = 1
    · have hstep : linkStep e o = { o with manifest_entry_id := some e.id } := by
        unfold linkStep
        rw [if_pos ⟨h, hm⟩]
      rw [linkObj_cons, hstep, linkObj_of_some es rfl,
        List.find?_cons_of_pos _ (by simpa using hm)]
      rfl
    · have hstep : linkStep e o = o := by
        unfold linkStep
        rw [if_neg]
        rintro ⟨-, h2⟩
        exact hm h2
      rw [linkObj_cons, hstep, ih h, List.find?_cons_of_neg _ (by simpa using hm)]

theorem linkObj_no_match (es : List ManifestEntry) {o : ObjectRow}
    (h : ∀ e ∈ es, ¬regexpFunction e.regex_pattern o.name = 1) : linkObj es o = o := by
  cases hmei : o.manifest_entry_id with
  | some x => exact linkObj_of_some es hmei
  | none =>
    rw [linkObj_of_none es hmei, List.find?_eq_none.mpr fun e he => by simpa using h e he]
    rw [show (Option.map (fun e => e.id) (none : Option ManifestEntry)) = none from rfl, ← hmei]

/-- Relinking changes nothing for a row the previous pass has already
settled. -/
theorem linkObj_idem (es : List ManifestEntry) (o : ObjectRow) :
    linkObj es (linkObj es o) = linkObj es o := by
  cases hmei : o.manifest_entry_id with
  | some x => rw [linkObj_of_some es hmei, linkObj_of_some es hmei]
  | none =>
    cases hf : es.find? fun e => regexpFunction e.regex_pattern o.name == 1 with
    | some e0 =>
      have h1 : linkObj es o = { o with manifest_entry_id := some e0.id } := by
        rw [linkObj_of_none es hmei, hf]
        rfl
      rw [h1]
      exact linkObj_of_some es rfl
    | none =>
      have hno : ∀ e ∈ es, ¬regexpFunction e.regex_pattern o.name = 1 := fun e he => by
        simpa using List.find?_eq_none.mp hf e he
      rw [linkObj_no_match es hno, linkObj_no_match es hno]

theorem setManifestStatus_objects (s : Store) (st : String) :
    (setManifestStatus s st).objects = s.objects := rfl

theorem setManifestStatus_entries (s : Store) (st : String) :
    (setManifestStatus s st).manifest_entries = s.manifest_entries := rfl

/-- The store returned by the linker: objects mapped through the
entry list in ascending id order; everything in `manifest_entries`
untouched. -/
theorem link_objects_eq (s : Store) :
    (link_objects_to_manifest_entries s).1.objects =
      s.objects.map (linkObj (sortEntriesById s.manifest_entries)) := by
  unfold link_objects_to_manifest_entries
  by_cases he : (sortEntriesById s.manifest_entries).isEmpty = true
  · rw [if_pos (by simpa using he)]
    have : sortEntriesById s.manifest_entries = [] := by
      cases h : sortEntriesById s.manifest_entries
      · rfl
      · rw [h] at he
        cases he
    rw [this]
    show s.objects = s.objects.map (linkObj [])
    symm
    calc s.objects.map (linkObj []) = s.objects.map id :=
        List.map_congr_left fun o _ => linkObj_nil o
      _ = s.objects := List.map_id s.objects
  · rw [if_neg (by simpa using he)]
    simp only [setManifestStatus_objects]
    rw [linkPassObjects_eq_map]
    rfl

theorem link_entries_eq (s : Store) :
    (link_objects_to_manifest_entries s).1.manifest_entries = s.manifest_entries := by
  unfold link_objects_to_manifest_entries
  by_cases he : (sortEntriesById s.manifest_entries).isEmpty = true
  · rw [if_pos (by simpa using he)]
    rfl
  · rw [if_neg (by simpa using he)]
    rfl

theorem link_stats_empty (s : Store)
    (he : (sortEntriesById s.manifest_entries).isEmpty = true) :
    (link_objects_to_manifest_entries s).2 = ⟨0, 0⟩ := by
  unfold link_objects_to_manifest_entries
  rw [if_pos (by simpa using he)]

theorem link_stats_nonempty (s : Store)
    (he : ¬(sortEntriesById s.manifest_entries).isEmpty = true) :
    (link_objects_to_manifest_entries s).2 =
      ⟨(link_objects_to_manifest_entries s).1.objects.length,
        (link_objects_to_manifest_entries s).1.objects.countP
          fun o => o.manifest_entry_id.isSome⟩ := by
  conv_rhs => rw [link_objects_eq]
  unfold link_objects_to_manifest_entries
  rw [if_neg (by simpa using he)]
  simp only [setManifestStatus_objects]
  rw [linkPassObjects_eq_map]
  rfl

/-- `find?` on a `Pairwise`-ordered list returns a minimal hit. -/
theorem find?_min_of_pairwise {α : Type} {r : α → α → Prop} {p : α → Bool} {l : List α}
    {a : α} (hp : l.Pairwise r) (hf : l.find? p = some a) :
    ∀ b ∈ l, p b = true → a = b ∨ r a b := by
  induction l with
  | nil => cases hf
  | cons x xs ih =>
    by_cases hx : p x = true
    · rw [List.find?_cons_of_pos _ hx] at hf
      obtain rfl := Option.some.inj hf
      intro b hb hpb
      rcases List.mem_cons.mp hb with rfl | hb
      · exact Or.inl rfl
      · exact Or.inr ((List.pairwise_cons.mp hp).1 b hb)
    · rw [List.find?_cons_of_neg _ hx] at hf
      intro b hb hpb
      rcases List.mem_cons.mp hb with rfl | hb
      · exact absurd hpb hx
      · exact ih (List.pairwise_cons.mp hp).2 hf b hb hpb

/-! ### C2: first match wins -/

/-- C2.  With entries stored in ascending id order, an unassigned object
matched by entries `ei` and `ej` with `ei.id < ej.id` is never linked to
`ej`; and when no matching entry has an id below `ei.id`, it is linked
exactly to `ei` — ascending processing order plus the `manifest_entry_id
IS NULL` guard give first-match-wins. -/
theorem C2_first_match_wins (s : Store) (o : ObjectRow) (ei ej : ManifestEntry)
    (hsorted : s.manifest_entries.Pairwise fun a b => a.id < b.id)
    (ho : o ∈ s.objects) (hnone : o.manifest_entry_id = none)
    (hei : ei ∈ s.manifest_entries) (hej : ej ∈ s.manifest_entries)
    (hmi : regexpFunction ei.regex_pattern o.name = 1)
    (hmj : regexpFunction ej.regex_pattern o.name = 1)
    (hij : ei.id < ej.id) :
    ∃ o' ∈ (link_objects_to_manifest_entries s).1.objects,
      o'.name = o.name ∧ o'.manifest_entry_id ≠ some ej.id ∧
      ((∀ e ∈ s.manifest_entries, regexpFunction e.regex_pattern o.name = 1 → ei.id ≤ e.id) →
        o'.manifest_entry_id = some ei.id) := by
  have hsort_eq : sortEntriesById s.manifest_entries = s.manifest_entries :=
    List.Sorted.insertionSort_eq (hsorted.imp fun h => Nat.le_of_lt h)
  refine ⟨linkObj (sortEntriesById s.manifest_entries) o, ?_, linkObj_name _ o, ?_⟩
  · rw [link_objects_eq]
    exact List.mem_map_of_mem _ ho
  · rw [hsort_eq, linkObj_of_none s.manifest_entries hnone]
    cases hf : s.manifest_entries.find? fun e => regexpFunction e.regex_pattern o.name == 1 with
    | none =>
      exact absurd (by simpa using List.find?_eq_none.mp hf ei hei) (by simpa using hmi)
    | some e0 =>
      have he0 : e0.id ≤ ei.id := by
        rcases find?_min_of_pairwise hsorted hf ei hei (by simpa using hmi) with rfl | hlt
        · exact Nat.le_refl _
        · exact Nat.le_of_lt hlt
      constructor
      · simp only [Option.map_some]
        intro hc
        have : e0.id = ej.id := by simpa using hc
        omega
      · intro hmin
        have h1 : ei.id ≤ e0.id :=
          hmin e0 (List.mem_of_find?_eq_some hf) (by simpa using List.find?_some hf)
        have : e0.id = ei.id := Nat.le_antisymm he0 h1
        simp [this]

/-- Witness for C2: object `ab`, entry 1 (`^a`) and entry 2 (`^ab$`)
both match, and the link pass assigns entry 1. -/
theorem C2_first_match_wins_witness :
    ∃ o' ∈ (link_objects_to_manifest_entries c2Store).1.objects,
      o'.name = c2Object.name ∧ o'.manifest_entry_id ≠ some c2EntryB.id ∧
      o'.manifest_entry_id = some c2EntryA.id := by
  obtain ⟨o', hmem, hname, hne, himp⟩ := C2_first_match_wins c2Store c2Object c2EntryA c2EntryB
    (by decide) (by decide) rfl (by decide) (by decide) (by decide) (by decide) (by decide)
  exact ⟨o', hmem, hname, hne, himp (by decide)⟩

/-! ### C3: link idempotence -/

/-- C3.  Running the linker twice in a row without clearing leaves every
object row unchanged after the second run and returns identical
`{total_objects, linked_objects}` statistics both times. -/
theorem C3_link_idempotent (s : Store) :
    (link_objects_to_manifest_entries (link_objects_to_manifest_entries s).1).1.objects =
      (link_objects_to_manifest_entries s).1.objects ∧
    (link_objects_to_manifest_entries (link_objects_to_manifest_entries s).1).2 =
      (link_objects_to_manifest_entries s).2 := by
  have hobj :
      (link_objects_to_manifest_entries (link_objects_to_manifest_entries s).1).1.objects =
        (link_objects_to_manifest_entries s).1.objects := by
    rw [link_objects_eq (link_objects_to_manifest_entries s).1, link_entries_eq,
      link_objects_eq s, List.map_map]
    apply List.map_congr_left
    intro o _
    exact linkObj_idem _ o
  refine ⟨hobj, ?_⟩
  by_cases he : (sortEntriesById s.manifest_entries).isEmpty = true
  · rw [link_stats_empty s he, link_stats_empty _ (by rwa [link_entries_eq])]
  · rw [link_stats_nonempty s he, link_stats_nonempty _ (by rwa [link_entries_eq]), hobj]

/-! ### C10: totality of the regex bridge -/

theorem regexpFunction_empty_pattern (t : String) : regexpFunction "" t = 0 := by
  unfold regexpFunction
  rw [if_pos (Or.inl rfl)]

theorem regexpFunction_empty_text (p : String) : regexpFunction p "" = 0 := by
  unfold regexpFunction
  rw [if_pos (Or.inr rfl)]

theorem regexpFunction_of_compile_none {p : String} (h : reCompile p = none) (t : String) :
    regexpFunction p t = 0 := by
  unfold regexpFunction
  split
  · rfl
  · rw [h]

theorem mem_sortEntriesById {e : ManifestEntry} {es : List ManifestEntry} :
    e ∈ sortEntriesById es ↔ e ∈ es :=
  (List.perm_insertionSort entryIdLe es).mem_iff

/-- C10.  The regex bridge is total: empty pattern, empty text, or a
pattern that fails to compile all yield no-match (`0`), and a link pass
whose stored patterns are all empty or invalid silently leaves every
object row unchanged instead of failing. -/
theorem C10_regexp_bridge_total :
    (∀ t, regexpFunction "" t = 0) ∧
    (∀ p, regexpFunction p "" = 0) ∧
    (∀ p t, reCompile p = none → regexpFunction p t = 0) ∧
    (∀ s : Store,
      (∀ e ∈ s.manifest_entries, e.regex_pattern = "" ∨ reCompile e.regex_pattern = none) →
      (link_objects_to_manifest_entries s).1.objects = s.objects) := by
  refine ⟨regexpFunction_empty_pattern, regexpFunction_empty_text,
    fun p t h => regexpFunction_of_compile_none h t, ?_⟩
  intro s hinv
  rw [link_objects_eq s]
  have : ∀ o ∈ s.objects, linkObj (sortEntriesById s.manifest_entries) o = o := by
    intro o _
    apply linkObj_no_match
    intro e he
    rcases hinv e (mem_sortEntriesById.mp he) with h | h
    · rw [h, regexpFunction_empty_pattern]
      omega
    · rw [regexpFunction_of_compile_none h]
      omega
  calc s.objects.map (linkObj (sortEntriesById s.manifest_entries))
      = s.objects.map id := List.map_congr_left this
    _ = s.objects := List.map_id s.objects

/-- Witness for C10: empty pattern, empty text, the invalid pattern `(`
(a `re.error` in CPython), and a link pass over a store whose only
entry's pattern is `(` leaving its object table unchanged. -/
theorem C10_regexp_bridge_total_witness :
    regexpFunction "" "abc" = 0 ∧ regexpFunction "ab" "" = 0 ∧
    regexpFunction "(" "abc" = 0 ∧
    (link_objects_to_manifest_entries c10Store).1.objects = c10Store.objects :=
  ⟨C10_regexp_bridge_total.1 "abc", C10_regexp_bridge_total.2.1 "ab",
    C10_regexp_bridge_total.2.2.1 "(" "abc" (by decide),
    C10_regexp_bridge_total.2.2.2 c10Store (by decide)⟩

/-! ### C1: single-flight start -/

/-- C1.  After a successful `start_fetch`, a second `start_fetch` while
the first run has not completed (its in-memory state and lock file are
still in place) fails with `RuntimeError("Fetch already running")`
before any mutation: the manager state — including the store directory
and the first run's record — is returned unchanged.  The check is
`_is_fetch_running_locked` (in-memory state AND lock-file presence),
executed inside the single `_thread_lock` critical section, which the
model renders as one atomic transition. -/
theorem C1_already_running (st st1 : FetchManagerState) (bucket : String)
    (pfx : Option String) (now : String) (r : StartResult)
    (h : start_fetch st bucket pfx now = (st1, Except.ok r))
    (bucket' : String) (pfx' : Option String) (now' : String) :
    start_fetch st1 bucket' pfx' now' = (st1, Except.error "Fetch already running") := by
  unfold start_fetch at h
  by_cases hr : is_fetch_running_locked st = true
  · rw [if_pos hr] at h
    exact absurd h (by simp)
  · rw [if_neg hr] at h
    have h1 : st1 = FetchManagerState.mk (some (CurrentFetch.mk now bucket pfx now)) true
        (st.dbs ++ [(now, create_fetch_db bucket pfx now)]) :=
      ((Prod.mk.injEq _ _ _ _).mp h).1.symm
    subst h1
    rfl

/-- Witness for C1: from the idle state, a first start succeeds and an
immediate second start fails with the state unchanged. -/
theorem C1_already_running_witness :
    start_fetch (start_fetch c1State "bucket" none "t0").1 "bucket" none "t1" =
      ((start_fetch c1State "bucket" none "t0").1, Except.error "Fetch already running") :=
  C1_already_running c1State (start_fetch c1State "bucket" none "t0").1 "bucket" none "t0"
    ⟨"t0", "t0"⟩ rfl "bucket" none "t1"

/-! ### C6: filter conjunction -/

theorem sortObjects_perm (sort : String) (l : List ObjectRow) :
    (sortObjects sort l).Perm l := by
  unfold sortObjects
  split_ifs
  · exact List.perm_insertionSort _ _
  · exact List.perm_insertionSort _ _
  · exact List.perm_insertionSort _ _
  · exact List.perm_insertionSort _ _

/-- Every returned page item passed the `WHERE` predicate. -/
theorem mem_page_items_filter {s : Store} {page page_size : Nat} {rf : Option String}
    {sort : String} {cb hct : Option String} {rfs : List String} {useM excM : Bool}
    {o : ObjectRow}
    (ho : o ∈ (get_objects_page s page page_size rf sort cb hct rfs useM excM).items) :
    pageFilterPred s.manifest_entries rf rfs cb hct useM excM o = true := by
  unfold get_objects_page at ho
  simp only at ho
  have h1 : o ∈ sortObjects sort
      (s.objects.filter (pageFilterPred s.manifest_entries rf rfs cb hct useM excM)) :=
    (((List.take_sublist _ _).trans (List.drop_sublist _ _)).subset) ho
  have h2 := (sortObjects_perm sort _).mem_iff.mp h1
  exact (List.mem_filter.mp h2).2

/-- C6 (amended).  Every returned item satisfies the created-before
filter (strict lexical less-than on a present creation timestamp) and
the tri-state custom-time filter; the manifest-relationship mode is
enforced when supplied; and the regex disjunction constrains items only
when no manifest mode is active — `use_manifest_filtering` (or
`exclude_manifest_matches`) causes any supplied regex patterns to be
ignored rather than conjoined. -/
theorem C6_filters_amended (s : Store) (page page_size : Nat) (regex_filter : Option String)
    (sort : String) (created_before has_custom_time : Option String)
    (regex_filters : List String) (useM excM : Bool) (o : ObjectRow)
    (ho : o ∈ (get_objects_page s page page_size regex_filter sort created_before
      has_custom_time regex_filters useM excM).items) :
    (∀ cb, created_before = some cb → cb ≠ "" →
      ∃ t, o.time_created = some t ∧ strLt t cb = true) ∧
    (∀ v, has_custom_time = some v → v ≠ "" →
      ((strToLower v = "true" ∨ strToLower v = "yes") → o.custom_time.isSome = true) ∧
      (¬(strToLower v = "true" ∨ strToLower v = "yes") → o.custom_time = none)) ∧
    (useM = true → ∃ me ∈ s.manifest_entries, o.manifest_entry_id = some me.id) ∧
    (useM = false → excM = true → o.manifest_entry_id = none) ∧
    (useM = false → excM = false → allRegexPatterns regex_filter regex_filters ≠ [] →
      ∃ p ∈ allRegexPatterns regex_filter regex_filters, regexpFunction p o.name = 1) := by
  have hpred := mem_page_items_filter ho
  simp only [pageFilterPred, Bool.and_eq_true] at hpred
  obtain ⟨⟨hstrat, hdate⟩, hcustom⟩ := hpred
  refine ⟨?_, ?_, ?_, ?_, ?_⟩
  · intro cb hcb hne
    rw [hcb] at hdate
    dsimp only at hdate
    rw [if_neg hne] at hdate
    cases hoc : o.time_created with
    | none => rw [hoc] at hdate; dsimp only at hdate; cases hdate
    | some t =>
      rw [hoc] at hdate
      dsimp only at hdate
      exact ⟨t, rfl, by simpa using hdate⟩
  · intro v hv hne
    rw [hv] at hcustom
    dsimp only at hcustom
    rw [if_neg hne] at hcustom
    by_cases htv : strToLower v = "true" ∨ strToLower v = "yes"
    · rw [if_pos htv] at hcustom
      exact ⟨fun _ => hcustom, fun hc => absurd htv hc⟩
    · rw [if_neg htv] at hcustom
      exact ⟨fun hc => absurd hc htv, fun _ => Option.isNone_iff_eq_none.mp hcustom⟩
  · intro hM
    rw [hM] at hstrat
    rw [if_pos rfl] at hstrat
    obtain ⟨me, hme, hbeq⟩ := List.any_eq_true.mp hstrat
    exact ⟨me, hme, by simpa using hbeq⟩
  · intro hM hE
    rw [hM, hE] at hstrat
    rw [if_neg (by simp), if_pos rfl] at hstrat
    exact Option.isNone_iff_eq_none.mp hstrat
  · intro hM hE hne
    rw [hM, hE] at hstrat
    rw [if_neg (by simp), if_neg (by simp), Bool.or_eq_true] at hstrat
    rcases hstrat with h | h
    · exact absurd (List.isEmpty_iff.mp h) hne
    · obtain ⟨p, hp, hmatch⟩ := List.any_eq_true.mp h
      exact ⟨p, hp, by simpa using hmatch⟩

/-- Counterexample for C6 as stated: with `use_manifest_filtering` set
and the regex filter `^z$` supplied, the page still returns the object
`alpha`, which does not satisfy the regex filter — supplied filter kinds
are not all conjoined. -/
theorem C6_filters_counterexample :
    (get_objects_page c6Store 1 200 none "name_asc" none none ["^z$"] true false).items =
      [⟨"alpha", 3, "2024-01-01", none, none, some 1⟩] ∧
    regexpFunction "^z$" "alpha" = 0 := by
  constructor
  · decide
  · decide

/-- Witness for the amended C6 at a store whose single object satisfies
a regex filter, a created-before bound and custom-time presence
simultaneously. -/
theorem C6_filters_amended_witness :
    (∃ t, (⟨"alpha", 3, "2024-01-01", some "2020-05-05", some "2021-01-01", none⟩ :
      ObjectRow).time_created = some t ∧ strLt t "2021-01-01" = true) ∧
    (∃ p ∈ allRegexPatterns none ["^a"],
      regexpFunction p (⟨"alpha", 3, "2024-01-01", some "2020-05-05", some "2021-01-01", none⟩ :
        ObjectRow).name = 1) := by
  have h := C6_filters_amended c6WStore 1 200 none "name_asc" (some "2021-01-01") none
    ["^a"] false false ⟨"alpha", 3, "2024-01-01", some "2020-05-05", some "2021-01-01", none⟩
    (by decide)
  exact ⟨h.1 "2021-01-01" rfl (by decide), h.2.2.2.2 rfl rfl (by decide)⟩

/-! ### C8: pattern deduplication -/

theorem foldl_preserves {α β : Type} (g : β → α → β) (P : β → Prop)
    (h : ∀ b a, P b → P (g b a)) : ∀ (l : List α) (b : β), P b → P (l.foldl g b) := by
  intro l
  induction l with
  | nil => exact fun b hb => hb
  | cons a l ih => exact fun b hb => ih _ (h b a hb)

theorem addPattern_nodup {pats : List String} {p : String} (h : pats.Nodup) :
    (addPattern pats p).Nodup := by
  unfold addPattern
  split
  · exact h
  · rename_i hc
    have hp : p ∉ pats := by simpa using hc
    simp [List.nodup_append, h, hp]

/-- C8 (amended).  The compiler's returned pattern set
(`parse_manifest_patterns`, a Python `set`) contains each anchored
pattern string at most once. -/
theorem C8_compiler_set_nodup (doc : ManifestDoc) : (parse_manifest_patterns doc).Nodup := by
  unfold parse_manifest_patterns
  refine foldl_preserves _ (fun pats : List String => pats.Nodup) ?_ doc.mapping [] List.nodup_nil
  intro pats kv hp
  dsimp only
  split
  · exact hp
  · split
    · exact hp
    · split
      · exact hp
      · exact foldl_preserves _ (fun pats : List String => pats.Nodup)
          (fun pats d hpd => addPattern_nodup hpd) _ pats hp

/-- Counterexample for C8 as stated: the Manifest Entry candidates
persisted by `fetch_and_parse_manifest` for `c8Doc` (two artifacts with
the same destination and `pretty_name`) store the identical compiled
pattern twice — the persisted list is not deduplicated. -/
theorem C8_stored_entries_duplicated :
    ¬((fetch_and_parse_manifest "u" "t" c8Doc (create_fetch_db "b" none "t0")).1.manifest_entries.map
        fun e => e.regex_pattern).Nodup := by
  decide

/-! ### C9: the release/version scenario -/

/-- Counterexample for C9 as stated: compiling the §8 scenario manifest
yields exactly `c9Pattern`, and that pattern does **not** match
`release/12.0/app-12.0.exe` — the compiled pattern begins with a
literal `/` (empty bucket path) and contains `//` (trailing slash in
the destination). -/
theorem C9_scenario_counterexample :
    parse_manifest_patterns c9Doc = [c9Pattern] ∧
    regexpFunction c9Pattern "release/12.0/app-12.0.exe" = 0 := by
  constructor
  · decide
  · decide

/-- C9 (amended).  The scenario manifest compiles to the single anchored
pattern `^/release/\d+\.\d+b?\d?//[A-Za-z0-9-_]*/?app\-\d+\.\d+b?\d?\.exe$`,
which matches `/release/12.0//app-12.0.exe` (leading slash from the
empty bucket path, double slash from the destination's trailing slash)
and rejects the `.zip` names in either spelling, because the literal
`.exe` from `pretty_name` must match exactly. -/
theorem C9_scenario_amended :
    parse_manifest_patterns c9Doc = [c9Pattern] ∧
    c9Pattern =
      "^/release/\\d+\\.\\d+b?\\d?//[A-Za-z0-9-_]*/?app\\-\\d+\\.\\d+b?\\d?\\.exe$" ∧
    regexpFunction c9Pattern "/release/12.0//app-12.0.exe" = 1 ∧
    regexpFunction c9Pattern "/release/12.0//app-12.0b1.zip" = 0 ∧
    regexpFunction c9Pattern "release/12.0/app-12.0b1.zip" = 0 := by
  refine ⟨by decide, by decide, by decide, by decide, by decide⟩

/-! ### C5: the 1500-object ingestion scenario -/

/-- When every streamed blob carries its `updated` timestamp, the
ingestion loop terminates with status `success`, a record count of
everything processed, and the object table equal to the batch-by-batch
upsert of the whole stream. -/
theorem runFetchLoop_success (endT : String) (bs : List Blob) :
    ∀ (s : Store) (batch : List ObjData) (cnt : Nat),
      (∀ d ∈ batch, d.updated.isSome = true) →
      (∀ b ∈ bs, b.updated.isSome = true) →
      runFetchLoop endT s bs batch cnt =
        runSuccessStore s endT (cnt + bs.length) (batch ++ bs.map blobToObj) := by
  induction bs with
  | nil =>
    intro s batch cnt hbatch _
    simp only [runFetchLoop]
    by_cases hb : batch.isEmpty
    · rw [if_pos hb]
      have hbe : batch = [] := List.isEmpty_iff.mp hb
      subst hbe
      rfl
    · rw [if_neg hb]
      have hok : insert_objects_batch s batch =
          Except.ok { s with objects := upsertBatch s.objects batch } := by
        unfold insert_objects_batch
        rw [if_pos (List.all_eq_true.mpr hbatch)]
      rw [hok]
      unfold runSuccessStore update_fetch_status
      simp only [List.map_nil, List.append_nil]
      rfl
  | cons b bs ih =>
    intro s batch cnt hbatch hbs
    have hall : ∀ d ∈ batch ++ [blobToObj b], d.updated.isSome = true := by
      intro d hd
      rcases List.mem_append.mp hd with h | h
      · exact hbatch d h
      · have he : d = blobToObj b := by simpa using h
        subst he
        exact hbs b (List.mem_cons_self b bs)
    have hbs' : ∀ b' ∈ bs, b'.updated.isSome = true :=
      fun b' hb' => hbs b' (List.mem_cons_of_mem b hb')
    simp only [runFetchLoop]
    by_cases hfull : 1000 ≤ (batch ++ [blobToObj b]).length
    · rw [if_pos hfull]
      have hok : insert_objects_batch s (batch ++ [blobToObj b]) =
          Except.ok (Store.mk s.fetch (upsertBatch s.objects (batch ++ [blobToObj b]))
            s.manifest s.manifest_entries s.nextEntryId) := by
        unfold insert_objects_batch
        rw [if_pos (List.all_eq_true.mpr hall)]
      rw [hok]
      show runFetchLoop endT (update_fetch_status
          (Store.mk s.fetch (upsertBatch s.objects (batch ++ [blobToObj b])) s.manifest
            s.manifest_entries s.nextEntryId) "running" none (some (cnt + 1)) none)
          bs [] (cnt + 1) =
        runSuccessStore s endT (cnt + (b :: bs).length) (batch ++ (b :: bs).map blobToObj)
      rw [ih _ [] (cnt + 1) (fun d hd => absurd hd (List.not_mem_nil d)) hbs']
      unfold runSuccessStore update_fetch_status
      simp only [Store.mk.injEq, FetchRow.mk.injEq, List.nil_append, List.length_cons,
        List.map_cons, true_and, and_true]
      constructor
      · omega
      · rw [← upsertBatch_append_batches, List.append_assoc]
        rfl
    · rw [if_neg hfull]
      rw [ih _ (batch ++ [blobToObj b]) (cnt + 1) hall hbs']
      unfold runSuccessStore
      simp only [Store.mk.injEq, FetchRow.mk.injEq, List.length_cons, List.map_cons,
        true_and, and_true]
      constructor
      · omega
      · rw [List.append_assoc]
        rfl

/-- C5.  Ingesting 1500 distinct objects (one full batch of 1000 plus a
trailing flush of 500) terminates with run status `success` and
`record_count = 1500`; querying page 2 with `page_size = 1000` and the
default sort then returns exactly 500 items sorted by name ascending,
with `total = 1500`. -/
theorem C5_ingest_1500 (blobs : List Blob) (bucket : String) (pfx : Option String)
    (t0 endT : String) (hlen : blobs.length = 1500)
    (hnd : (blobs.map fun b => b.name).Nodup)
    (hupd : ∀ b ∈ blobs, b.updated.isSome = true) :
    (runFetch endT (create_fetch_db bucket pfx t0) blobs).fetch.status = "success" ∧
    (runFetch endT (create_fetch_db bucket pfx t0) blobs).fetch.record_count = 1500 ∧
    (get_objects_page (runFetch endT (create_fetch_db bucket pfx t0) blobs) 2 1000 none
      "name_asc" none none [] false false).items.length = 500 ∧
    (get_objects_page (runFetch endT (create_fetch_db bucket pfx t0) blobs) 2 1000 none
      "name_asc" none none [] false false).total = 1500 ∧
    (get_objects_page (runFetch endT (create_fetch_db bucket pfx t0) blobs) 2 1000 none
      "name_asc" none none [] false false).items.Pairwise nameLe := by
  have hrun : runFetch endT (create_fetch_db bucket pfx t0) blobs =
      runSuccessStore (create_fetch_db bucket pfx t0) endT (0 + blobs.length)
        ([] ++ blobs.map blobToObj) :=
    runFetchLoop_success endT blobs (create_fetch_db bucket pfx t0) [] 0
      (fun d hd => absurd hd (List.not_mem_nil d)) hupd
  have hobj : (runFetch endT (create_fetch_db bucket pfx t0) blobs).objects =
      upsertBatch [] (blobs.map blobToObj) := by
    rw [hrun]
    rfl
  have hobj_len : (runFetch endT (create_fetch_db bucket pfx t0) blobs).objects.length =
      1500 := by
    rw [hobj, length_upsertBatch_nil]
    · rw [List.length_map, hlen]
    · have hm : ((blobs.map blobToObj).map fun d => d.name) = blobs.map fun b => b.name := by
        rw [List.map_map]
        rfl
      rw [hm]
      exact hnd
  have hpred : ∀ o ∈ (runFetch endT (create_fetch_db bucket pfx t0) blobs).objects,
      pageFilterPred (runFetch endT (create_fetch_db bucket pfx t0) blobs).manifest_entries
        none [] none none false false o = true :=
    fun o _ => rfl
  have hfilter : (runFetch endT (create_fetch_db bucket pfx t0) blobs).objects.filter
      (pageFilterPred (runFetch endT (create_fetch_db bucket pfx t0) blobs).manifest_entries
        none [] none none false false) =
      (runFetch endT (create_fetch_db bucket pfx t0) blobs).objects :=
    List.filter_eq_self.mpr hpred
  have hpage : get_objects_page (runFetch endT (create_fetch_db bucket pfx t0) blobs) 2 1000
      none "name_asc" none none [] false false =
      PageResult.mk
        (((List.insertionSort nameLe
          (runFetch endT (create_fetch_db bucket pfx t0) blobs).objects).drop 1000).take 1000)
        (runFetch endT (create_fetch_db bucket pfx t0) blobs).objects.length 2 1000 := by
    unfold get_objects_page
    rw [hfilter]
    unfold sortObjects
    dsimp only
    rw [if_neg (by decide), if_neg (by decide), if_neg (by decide)]
  have hsorted_len : (List.insertionSort nameLe
      (runFetch endT (create_fetch_db bucket pfx t0) blobs).objects).length = 1500 := by
    rw [List.length_insertionSort, hobj_len]
  refine ⟨?_, ?_, ?_, ?_, ?_⟩
  · rw [hrun]
    rfl
  · rw [hrun]
    show 0 + blobs.length = 1500
    omega
  · rw [hpage]
    simp only [List.length_take, List.length_drop, hsorted_len]
    decide
  · rw [hpage]
    exact hobj_len
  · rw [hpage]
    show List.Pairwise nameLe (List.take 1000 (List.drop 1000 (List.insertionSort nameLe
      (runFetch endT (create_fetch_db bucket pfx t0) blobs).objects)))
    exact List.Pairwise.sublist ((List.take_sublist _ _).trans (List.drop_sublist _ _))
      (List.sorted_insertionSort nameLe _)

/-- Witness for C5 on 1500 concrete blobs with pairwise distinct
names. -/
theorem C5_ingest_1500_witness :
    (runFetch "tEnd" (create_fetch_db "bucket" none "t0") wBlobs).fetch.status = "success" ∧
    (runFetch "tEnd" (create_fetch_db "bucket" none "t0") wBlobs).fetch.record_count = 1500 ∧
    (get_objects_page (runFetch "tEnd" (create_fetch_db "bucket" none "t0") wBlobs) 2 1000
      none "name_asc" none none [] false false).items.length = 500 ∧
    (get_objects_page (runFetch "tEnd" (create_fetch_db "bucket" none "t0") wBlobs) 2 1000
      none "name_asc" none none [] false false).total = 1500 ∧
    (get_objects_page (runFetch "tEnd" (create_fetch_db "bucket" none "t0") wBlobs) 2 1000
      none "name_asc" none none [] false false).items.Pairwise nameLe := by
  have h1 : wBlobs.length = 1500 := by
    rw [wBlobs, List.length_map, List.length_range]
  have h2 : (wBlobs.map fun b => b.name).Nodup := by
    have hm : (wBlobs.map fun b => b.name) = (List.range 1500).map wName := by
      rw [wBlobs, List.map_map]
      rfl
    rw [hm]
    refine List.Nodup.map ?_ (List.nodup_range 1500)
    intro i j hij
    have hl := congrArg (fun s : String => s.data.length) hij
    simpa [wName] using hl
  have h3 : ∀ b ∈ wBlobs, b.updated.isSome = true := by
    intro b hb
    rw [wBlobs] at hb
    obtain ⟨i, -, rfl⟩ := List.mem_map.mp hb
    rfl
  exact C5_ingest_1500 wBlobs "bucket" none "t0" "tEnd" h1 h2 h3

/-! ### C7: manifest caching -/

theorem clear_objects_eq (s : Store) :
    (clear_manifest_links s).objects = s.objects.map clearObj := rfl

theorem setManifestStatus_hash (s : Store) (st : String) :
    ((setManifestStatus s st).manifest).map (fun m => m.hash) =
      s.manifest.map fun m => m.hash := by
  cases hm : s.manifest
  · simp [setManifestStatus, hm]
  · simp [setManifestStatus, hm]

/-- The linker never changes the stored manifest hash. -/
theorem link_manifest_hash (s : Store) :
    ((link_objects_to_manifest_entries s).1.manifest).map (fun m => m.hash) =
      s.manifest.map fun m => m.hash := by
  unfold link_objects_to_manifest_entries
  by_cases he : (sortEntriesById s.manifest_entries).isEmpty = true
  · rw [if_pos (by simpa using he)]
    exact setManifestStatus_hash s "processing"
  · rw [if_neg (by simpa using he)]
    show ((setManifestStatus _ "idle").manifest).map _ = _
    rw [setManifestStatus_hash]
    exact setManifestStatus_hash s "processing"

/-- Clearing after a link pass restores exactly the cleared table. -/
theorem map_clear_link_clear (es : List ManifestEntry) (objs : List ObjectRow) :
    ((objs.map clearObj).map (linkObj es)).map clearObj = objs.map clearObj := by
  rw [List.map_map, List.map_map]
  apply List.map_congr_left
  intro o _
  show clearObj (linkObj es (clearObj o)) = clearObj o
  rw [clearObj_linkObj]
  rfl

/-- The cached branch of `fetch_and_parse_manifest`: identical stored
hash means the store is untouched and `cached = true`. -/
theorem fp_of_cached (url now : String) (doc : ManifestDoc) (s : Store) (m : ManifestRow)
    (hm : s.manifest = some m) (hh : m.hash = sha256Model doc.raw) :
    (fetch_and_parse_manifest url now doc s).1 = s ∧
    (fetch_and_parse_manifest url now doc s).2.cached = true := by
  unfold fetch_and_parse_manifest
  rw [show get_current_manifest s = some m from hm]
  dsimp only
  rw [if_pos (beq_iff_eq.mpr hh)]
  exact ⟨rfl, rfl⟩

/-- The fresh branch of `fetch_and_parse_manifest`: a differing (or
absent) stored hash compiles and stores the new manifest, clearing all
object links. -/
theorem fp_of_fresh (url now : String) (doc : ManifestDoc) (s : Store)
    (hne : (s.manifest.map fun m => m.hash) ≠ some (sha256Model doc.raw)) :
    (fetch_and_parse_manifest url now doc s).1 =
      Store.mk s.fetch (s.objects.map clearObj)
        (some (ManifestRow.mk url (sha256Model doc.raw) now
          (buildPatternEntries doc).length "idle"))
        (assignIds s.nextEntryId (buildPatternEntries doc))
        (s.nextEntryId + (buildPatternEntries doc).length) ∧
    (fetch_and_parse_manifest url now doc s).2.cached = false := by
  unfold fetch_and_parse_manifest store_manifest
  cases hm : s.manifest with
  | none =>
    rw [show get_current_manifest s = none from hm]
    dsimp only
    rw [if_neg (by simp)]
    rw [if_neg (by simp)]
    exact ⟨rfl, rfl⟩
  | some m =>
    have hmh : ¬m.hash = sha256Model doc.raw := fun e => hne (by simp [hm, e])
    rw [show get_current_manifest s = some m from hm]
    dsimp only
    rw [if_neg (by simpa using hmh)]
    rw [if_neg (by simpa using hmh)]
    exact ⟨rfl, rfl⟩

/-- Shape of the store after one `/manifest/parse` route call: some
entry list `E` is stored, the objects are the cleared table relinked
against `E` in ascending id order, and the stored hash is the
document's. -/
theorem route_shape (url now : String) (doc : ManifestDoc) (s0 : Store) :
    ∃ E : List ManifestEntry,
      (parse_manifest_route url now doc s0).1.manifest_entries = E ∧
      (parse_manifest_route url now doc s0).1.objects =
        (s0.objects.map clearObj).map (linkObj (sortEntriesById E)) ∧
      ((parse_manifest_route url now doc s0).1.manifest).map (fun m => m.hash) =
        some (sha256Model doc.raw) := by
  have hroute : (parse_manifest_route url now doc s0).1 =
      (link_objects_to_manifest_entries (fetch_and_parse_manifest url now doc
        (if (get_current_manifest s0).isSome = true then clear_manifest_links s0
         else s0)).1).1 := rfl
  rw [hroute]
  by_cases hm0 : (get_current_manifest s0).isSome = true
  · rw [if_pos hm0]
    obtain ⟨m0, hm0'⟩ := Option.isSome_iff_exists.mp (by simpa using hm0)
    have hm0m : s0.manifest = some m0 := hm0'
    by_cases hh : m0.hash = sha256Model doc.raw
    · obtain ⟨hfp1, -⟩ := fp_of_cached url now doc (clear_manifest_links s0) m0
        (show (clear_manifest_links s0).manifest = some m0 from hm0') hh
      rw [hfp1]
      refine ⟨s0.manifest_entries, ?_, ?_, ?_⟩
      · rw [link_entries_eq]
        rfl
      · rw [link_objects_eq]
        rfl
      · rw [link_manifest_hash]
        rw [show (clear_manifest_links s0).manifest = s0.manifest from rfl, hm0m]
        exact congrArg some hh
    · obtain ⟨hfp1, -⟩ := fp_of_fresh url now doc (clear_manifest_links s0)
        (by rw [show (clear_manifest_links s0).manifest = s0.manifest from rfl, hm0m]
            intro hc
            exact hh (Option.some.inj hc))
      rw [hfp1]
      refine ⟨assignIds (clear_manifest_links s0).nextEntryId (buildPatternEntries doc),
        ?_, ?_, ?_⟩
      · rw [link_entries_eq]
      · rw [link_objects_eq]
        show ((s0.objects.map clearObj).map clearObj).map (linkObj _) = _
        have hdd : (s0.objects.map clearObj).map clearObj = s0.objects.map clearObj := by
          rw [List.map_map]
          exact List.map_congr_left fun o _ => rfl
        rw [hdd]
      · rw [link_manifest_hash]
        rfl
  · rw [if_neg hm0]
    have hnone : s0.manifest = none := Option.not_isSome_iff_eq_none.mp (by simpa using hm0)
    obtain ⟨hfp1, -⟩ := fp_of_fresh url now doc s0 (by rw [hnone]; simp)
    rw [hfp1]
    refine ⟨assignIds s0.nextEntryId (buildPatternEntries doc), ?_, ?_, ?_⟩
    · rw [link_entries_eq]
    · rw [link_objects_eq]
    · rw [link_manifest_hash]
      rfl

/-- C7.  Loading the same manifest document (identical content hash)
twice in a row through the parse route succeeds with `cached = true` on
the second call, skips recompilation and storage, and once the second
call's clear-and-relink completes, both the stored Manifest Entry set
and every object's manifest link are exactly as after the first call. -/
theorem C7_manifest_caching (url now now2 : String) (doc : ManifestDoc) (s0 : Store) :
    (parse_manifest_route url now2 doc (parse_manifest_route url now doc s0).1).2.cached =
      true ∧
    (parse_manifest_route url now2 doc
        (parse_manifest_route url now doc s0).1).1.manifest_entries =
      (parse_manifest_route url now doc s0).1.manifest_entries ∧
    (parse_manifest_route url now2 doc (parse_manifest_route url now doc s0).1).1.objects =
      (parse_manifest_route url now doc s0).1.objects := by
  obtain ⟨E, hE, hobj, hhash⟩ := route_shape url now doc s0
  obtain ⟨m, hmm, hmh⟩ := Option.map_eq_some'.mp hhash
  have hsome : (get_current_manifest (parse_manifest_route url now doc s0).1).isSome = true := by
    rw [show get_current_manifest (parse_manifest_route url now doc s0).1 =
      (parse_manifest_route url now doc s0).1.manifest from rfl, hmm]
    rfl
  have hif : (if (get_current_manifest (parse_manifest_route url now doc s0).1).isSome = true
      then clear_manifest_links (parse_manifest_route url now doc s0).1
      else (parse_manifest_route url now doc s0).1) =
      clear_manifest_links (parse_manifest_route url now doc s0).1 := if_pos hsome
  obtain ⟨hfp1, hfpc⟩ := fp_of_cached url now2 doc
    (clear_manifest_links (parse_manifest_route url now doc s0).1) m
    (show (clear_manifest_links (parse_manifest_route url now doc s0).1).manifest = some m
      from hmm) hmh
  refine ⟨?_, ?_, ?_⟩
  · show (fetch_and_parse_manifest url now2 doc
        (if (get_current_manifest (parse_manifest_route url now doc s0).1).isSome = true
         then clear_manifest_links (parse_manifest_route url now doc s0).1
         else (parse_manifest_route url now doc s0).1)).2.cached = true
    rw [hif]
    exact hfpc
  · show (link_objects_to_manifest_entries (fetch_and_parse_manifest url now2 doc
        (if (get_current_manifest (parse_manifest_route url now doc s0).1).isSome = true
         then clear_manifest_links (parse_manifest_route url now doc s0).1
         else (parse_manifest_route url now doc s0).1)).1).1.manifest_entries =
      (parse_manifest_route url now doc s0).1.manifest_entries
    rw [hif, hfp1, link_entries_eq]
    rfl
  · show (link_objects_to_manifest_entries (fetch_and_parse_manifest url now2 doc
        (if (get_current_manifest (parse_manifest_route url now doc s0).1).isSome = true
         then clear_manifest_links (parse_manifest_route url now doc s0).1
         else (parse_manifest_route url now doc s0).1)).1).1.objects =
      (parse_manifest_route url now doc s0).1.objects
    rw [hif, hfp1, link_objects_eq]
    show ((parse_manifest_route url now doc s0).1.objects.map clearObj).map
        (linkObj (sortEntriesById (parse_manifest_route url now doc s0).1.manifest_entries)) =
      (parse_manifest_route url now doc s0).1.objects
    rw [hE]
    rw [hobj]
    rw [map_clear_link_clear]
